import Mathlib

/-!
Verification development for the chat-ai-mobile repository.

The embedding translates the orchestration core of the app into Lean:
whitespace and title utilities from app/chat/[id].tsx, the search-directive
parsing from src/lib/ai/webSearch.ts, the provider registry from
src/lib/ai/models.ts, the streaming and image-call layer from
src/lib/ai/clients.ts, and the conversation store from src/lib/db/chat.ts.
IO effects (database writes, file caching, network transport) are modelled
as explicit traces or oracle parameters; provider responses are inputs, not
computed.
-/

/-- Whitespace test matching the JavaScript regular-expression class \s and
String.prototype.trim: ASCII whitespace plus the Unicode space characters
and line separators recognised by JS. -/
def isWs (c : Char) : Bool :=
  c = ' ' || c = '\t' || c = '\n' || c = '\r' ||
  c = (Char.ofNat 0x0b) || c = (Char.ofNat 0x0c) ||
  c = (Char.ofNat 0xa0) || c = (Char.ofNat 0x1680) ||
  (0x2000 ≤ c.toNat && c.toNat ≤ 0x200a) ||
  c = (Char.ofNat 0x2028) || c = (Char.ofNat 0x2029) ||
  c = (Char.ofNat 0x202f) || c = (Char.ofNat 0x205f) ||
  c = (Char.ofNat 0x3000) || c = (Char.ofNat 0xfeff)

/-- Every character of the list is whitespace. -/
def allWs (l : List Char) : Bool := l.all isWs

/-- Leading-whitespace removal, the front half of the JS trim. -/
def wsTrimStart (l : List Char) : List Char := l.dropWhile isWs

/-- Trailing-whitespace removal, matching the JS trimEnd used at
app/chat/[id].tsx line 253. -/
def wsTrimEnd (l : List Char) : List Char := (l.reverse.dropWhile isWs).reverse

/-- The JS String.prototype.trim: drop whitespace at both ends. -/
def jsTrim (l : List Char) : List Char := wsTrimEnd (wsTrimStart l)

/-- String-level wrapper for jsTrim. -/
def jsTrimStr (s : String) : String := String.mk (jsTrim s.data)

/-- Line splitting per the regular expression split on CR-optional LF used at
app/chat/[id].tsx line 246: a line break is either a bare newline or a
carriage return immediately followed by a newline; a lone carriage return
stays inside its line. In the CR-LF case the recursive call on the tail,
which begins with the newline, already contributes the single break the
CR-LF pair stands for. -/
def splitLines : List Char → List (List Char)
  | [] => [[]]
  | c :: rest =>
    if c = '\n' then [] :: splitLines rest
    else if c = '\r' ∧ rest.head? = some '\n' then
      splitLines rest
    else
      match splitLines rest with
      | [] => [[c]]
      | line :: lines => (c :: line) :: lines

/-- Whitespace-run collapsing per the JS replace of one-or-more whitespace
with a single space (app/chat/[id].tsx line 247). The flag records whether
the previous character was whitespace, so only the first character of each
run emits a space. -/
def collapseWsAux : Bool → List Char → List Char
  | _, [] => []
  | prevWs, c :: rest =>
    if isWs c then
      if prevWs then collapseWsAux true rest
      else ' ' :: collapseWsAux true rest
    else c :: collapseWsAux false rest

/-- Collapse every whitespace run to a single space. -/
def collapseWs (l : List Char) : List Char := collapseWsAux false l

/-- The normalisation applied to the chosen line at app/chat/[id].tsx
line 247: collapse whitespace runs, then trim. -/
def normLine (l : List Char) : List Char := jsTrim (collapseWs l)

/-- The first line whose trim is non-empty, as selected by the find at
app/chat/[id].tsx line 246. -/
def findContentLine (l : List Char) : Option (List Char) :=
  (splitLines l).find? (fun x => !(jsTrim x).isEmpty)

/-- Chat-title derivation, translated from deriveChatTitleFromMessage at
app/chat/[id].tsx lines 242-254: trim the input, pick the first line with
non-empty trim (falling back to the whole trimmed input), collapse internal
whitespace and trim, then return it unchanged when at most 48 characters
long, and otherwise return its first 47 characters with trailing whitespace
removed followed by a single ellipsis character. -/
def deriveChatTitleFromMessage (l : List Char) : Option (List Char) :=
  let trimmed := jsTrim l
  if trimmed.isEmpty then none
  else
    let firstLine := (findContentLine trimmed).getD trimmed
    let normalized := normLine firstLine
    if normalized.isEmpty then none
    else if normalized.length ≤ 48 then some normalized
    else some (wsTrimEnd (normalized.take 47) ++ ['…'])

/-- Title derivation as the amended claim states it: take the first line of
the input whose trim is non-empty (no such line means no derivation),
collapse internal whitespace runs to single spaces and trim; keep the result
when at most 48 characters long, otherwise truncate to the first 47
characters, remove trailing whitespace, and append one ellipsis character. -/
def specDeriveChatTitle (l : List Char) : Option (List Char) :=
  match findContentLine l with
  | none => none
  | some line =>
    let t := normLine line
    if t.length ≤ 48 then some t
    else some (wsTrimEnd (t.take 47) ++ ['…'])

/-- Lowercasing of ASCII letters, used for the case-insensitive keyword
matching of the two regular expressions in src/lib/ai/webSearch.ts. -/
def lowerChar (c : Char) : Char :=
  if 'A' ≤ c ∧ c ≤ 'Z' then Char.ofNat (c.toNat + 32) else c

/-- Whitespace-run collapsing per the replace of two-or-more whitespace
characters with a single space at src/lib/ai/webSearch.ts line 12: a run of
at least two whitespace characters becomes one space, while a single
whitespace character is kept verbatim. The flag records being inside a run
that has already emitted its space. -/
def collapseRuns2Aux : Bool → List Char → List Char
  | _, [] => []
  | inRun, a :: rest =>
    if isWs a then
      if inRun then collapseRuns2Aux true rest
      else
        match rest with
        | [] => [a]
        | b :: _ =>
          if isWs b then ' ' :: collapseRuns2Aux true rest
          else a :: collapseRuns2Aux false rest
    else a :: collapseRuns2Aux false rest

/-- Collapse every run of two or more whitespace characters to one space. -/
def collapseRuns2 (l : List Char) : List Char := collapseRuns2Aux false l

/-- Match the keyword part of the bracketed tag regular expression at
src/lib/ai/webSearch.ts line 1: a case-insensitive search-colon or web-colon
directly after the double opening bracket; returns the remainder after the
colon. -/
def matchTagKeyword (l : List Char) : Option (List Char) :=
  if (l.take 7).map lowerChar = "search:".data then some (l.drop 7)
  else if (l.take 4).map lowerChar = "web:".data then some (l.drop 4)
  else none

/-- Parse the body of a bracketed search tag after its double opening
bracket: the keyword and colon, then one or more characters other than a
closing bracket (the leftmost-longest capture of the regular expression),
then the double closing bracket. Returns the raw captured query and the
remainder after the tag. -/
def parseTag (l : List Char) : Option (List Char × List Char) :=
  match matchTagKeyword l with
  | none => none
  | some afterColon =>
    let q := afterColon.takeWhile (fun c => c ≠ ']')
    let r := afterColon.dropWhile (fun c => c ≠ ']')
    if q.isEmpty then none
    else
      match r with
      | ']' :: ']' :: r2 => some (q, r2)
      | _ => none

/-- Fuel-indexed scan implementing the global replace of the bracketed tag
regular expression at src/lib/ai/webSearch.ts lines 6-12: each matched tag
is replaced by a single space and its query, trimmed, is collected when
non-empty; on a failed match at a double bracket the scan advances one
character, as the regular-expression engine does. The fuel is an upper
bound on the remaining length, so it never runs out when started at the
length of the input. -/
def scanTagsAux : Nat → List Char → List Char × List String
  | 0, l => (l, [])
  | _ + 1, [] => ([], [])
  | fuel + 1, c :: rest =>
    if c = '[' ∧ rest.head? = some '[' then
      match parseTag rest.tail with
      | some (q, rest2) =>
        let out := scanTagsAux fuel rest2
        let trimmedQ := jsTrim q
        (' ' :: out.1, (if trimmedQ.isEmpty then [] else [String.mk trimmedQ]) ++ out.2)
      | none =>
        let out := scanTagsAux fuel rest
        (c :: out.1, out.2)
    else
      let out := scanTagsAux fuel rest
      (c :: out.1, out.2)

/-- Run the bracketed-tag scan with enough fuel for the whole input. -/
def scanTags (l : List Char) : List Char × List String := scanTagsAux l.length l

/-- Match the whole-message prefix form of src/lib/ai/webSearch.ts line 2:
the anchored case-insensitive search or web keyword, optional whitespace,
a colon, and a dot-star capture to the end of the input. Because the dot of
the regular expression does not match line terminators and the pattern is
anchored at both ends, the capture must be free of line terminators.
Returns the capture. -/
def matchInlineSearch (l : List Char) : Option (List Char) :=
  let afterKw :=
    if (l.take 6).map lowerChar = "search".data then some (l.drop 6)
    else if (l.take 3).map lowerChar = "web".data then some (l.drop 3)
    else none
  match afterKw with
  | none => none
  | some rest =>
    match rest.dropWhile isWs with
    | ':' :: r =>
      if r.all (fun c => ¬(c = '\n' ∨ c = '\r' ∨ c = (Char.ofNat 0x2028) ∨ c = (Char.ofNat 0x2029))) then
        some r
      else none
    | _ => none

/-- Search-directive parsing, translated from parseSearchDirectives at
src/lib/ai/webSearch.ts lines 4-29: replace every bracketed tag by one
space while collecting the trimmed non-empty queries, collapse runs of two
or more whitespace characters and trim; when no query was collected, try
the whole-message prefix form on the original input, and a non-empty
trimmed capture becomes the single query with an empty sanitized text. -/
def parseSearchDirectives (l : List Char) : List Char × List String :=
  let scanned := scanTags l
  let sanitized := jsTrim (collapseRuns2 scanned.1)
  if scanned.2.isEmpty then
    match matchInlineSearch l with
    | some captured =>
      let q := jsTrim captured
      if q.isEmpty then (sanitized, [])
      else ([], [String.mk q])
    | none => (sanitized, [])
  else (sanitized, scanned.2)

/-- Provider identifiers, the closed union dispatched on by getModel in
src/lib/ai/clients.ts lines 16-35. -/
inductive ProviderId
  | openai
  | google
  | apple
deriving DecidableEq, Repr

/-- The template-string rendering of a provider id used in alert messages. -/
def providerName : ProviderId → String
  | .openai => "openai"
  | .google => "google"
  | .apple => "apple"

/-- Model kinds from src/lib/ai/models.ts line 6. -/
inductive ModelKind
  | text
  | image
deriving DecidableEq, Repr

/-- A provider model entry from src/lib/ai/models.ts line 8. -/
structure ProviderModel where
  id : String
  label : String
  kind : ModelKind
deriving DecidableEq, Repr

/-- A provider definition from src/lib/ai/models.ts lines 10-15. -/
structure ProviderDefinition where
  id : ProviderId
  label : String
  models : List ProviderModel
  requiresApiKey : Bool
deriving DecidableEq, Repr

/-- The OpenAI registry entry from src/lib/ai/models.ts lines 17-26. -/
def OPENAI_PROVIDER : ProviderDefinition :=
  { id := .openai
    label := "OpenAI"
    requiresApiKey := true
    models :=
      [ { id := "gpt-5", label := "GPT-5", kind := .text }
      , { id := "gpt-5-mini", label := "GPT-5 Mini", kind := .text }
      , { id := "gpt-5-nano", label := "GPT-5 Nano", kind := .text } ] }

/-- The Google registry entry from src/lib/ai/models.ts lines 28-37. -/
def GOOGLE_PROVIDER : ProviderDefinition :=
  { id := .google
    label := "Google (Gemini)"
    requiresApiKey := true
    models :=
      [ { id := "gemini-2.5-pro", label := "Gemini 2.5 Pro", kind := .text }
      , { id := "gemini-2.5-flash", label := "Gemini 2.5 Flash", kind := .text }
      , { id := "gemini-2.5-flash-image-preview", label := "Gemini 2.5 Flash Image Preview", kind := .image } ] }

/-- The Apple registry entry from src/lib/ai/models.ts lines 39-44. -/
def APPLE_PROVIDER : ProviderDefinition :=
  { id := .apple
    label := "Apple Intelligence"
    requiresApiKey := false
    models := [ { id := "system-default", label := "Apple Intelligence (On Device)", kind := .text } ] }

/-- The always-available registry snapshot (src/lib/ai/models.ts line 46),
also the value of the cached accessor before the asynchronous probe runs. -/
def CORE_PROVIDERS : List ProviderDefinition := [OPENAI_PROVIDER, GOOGLE_PROVIDER]

/-- The registry snapshot after a successful Apple availability probe
(src/lib/ai/models.ts lines 50-56). -/
def DETECTED_PROVIDERS : List ProviderDefinition := [OPENAI_PROVIDER, GOOGLE_PROVIDER, APPLE_PROVIDER]

/-- Provider lookup from src/lib/ai/models.ts lines 107-109. -/
def findProvider (providers : List ProviderDefinition) (providerId : ProviderId) :
    Option ProviderDefinition :=
  providers.find? (fun p => p.id = providerId)

/-- Model lookup from src/lib/ai/models.ts lines 111-118: find the provider,
then its model by id; any miss yields the absent value. -/
def getModelInfo (providerId : ProviderId) (modelId : String)
    (providers : List ProviderDefinition) : Option ProviderModel :=
  match findProvider providers providerId with
  | none => none
  | some p => p.models.find? (fun m => m.id = modelId)

/-- Image-kind test from src/lib/ai/models.ts lines 120-126: true exactly
when the model lookup succeeds with an image-kind entry. -/
def isImageModel (providerId : ProviderId) (modelId : String)
    (providers : List ProviderDefinition) : Bool :=
  match getModelInfo providerId modelId providers with
  | some m => m.kind = .image
  | none => false

/-- Credential requirement from src/lib/ai/models.ts lines 128-134, with the
false fallback for an unknown provider. -/
def providerRequiresApiKey (providerId : ProviderId)
    (providers : List ProviderDefinition) : Bool :=
  match findProvider providers providerId with
  | some p => p.requiresApiKey
  | none => false

/-- The pair is present in the given registry snapshot: some provider entry
carries the provider id and lists a model with the model id. -/
def pairRegistered (providerId : ProviderId) (modelId : String)
    (providers : List ProviderDefinition) : Prop :=
  ∃ p ∈ providers, p.id = providerId ∧ ∃ m ∈ p.models, m.id = modelId

instance (providerId : ProviderId) (modelId : String) (providers : List ProviderDefinition) :
    Decidable (pairRegistered providerId modelId providers) := by
  unfold pairRegistered; infer_instance

/-- One run of the token-stream side of streamReply: the ordered chunk
sequence the provider stream yields, and the full non-streamed text the
awaited text promise would deliver (none models that await throwing). -/
structure StreamRun where
  chunks : List String
  fullText : Option String
deriving DecidableEq, Repr

/-- Observable outcome of streamReply: the onToken payloads in call order,
how many times the full non-streamed text was requested, and the returned
text (none models the call throwing). -/
structure StreamOutcome where
  callbacks : List String
  fullTextRequests : Nat
  result : Option String
deriving DecidableEq, Repr

/-- Streaming reply, translated from streamReply at src/lib/ai/clients.ts
lines 35-77. Without an onToken handler the full non-streamed text is
awaited directly, a failure propagating. With a handler, the loop skips
empty chunks and calls onToken once per non-empty chunk with that chunk, so
the payload list is the filtered chunk list and the accumulator is its
concatenation; a non-empty accumulator is returned as is, and otherwise the
full non-streamed text is requested once, the catch turning a failure into
the empty accumulator. -/
def streamReply (hasOnToken : Bool) (run : StreamRun) : StreamOutcome :=
  if !hasOnToken then
    { callbacks := [], fullTextRequests := 1, result := run.fullText }
  else
    let payloads := run.chunks.filter (fun c => ¬c = "")
    let acc := String.join payloads
    if ¬acc = "" then
      { callbacks := payloads, fullTextRequests := 0, result := some acc }
    else
      { callbacks := payloads, fullTextRequests := 1,
        result := some (run.fullText.getD "") }

/-- The caller-side accumulation of the chat screen (app/chat/[id].tsx
lines 137-147): its onToken handler appends each payload to a running
accumulator and overwrites the assistant message content with it, so after
the i-th callback the content is the concatenation of the first i
payloads. -/
def callerContents (payloads : List String) : List String :=
  (List.range payloads.length).map (fun i => String.join (payloads.take (i + 1)))

/-- A reference-image attachment as passed through the send pipeline:
base64 bytes and a MIME type (ui/InputBar.tsx ImageAttachmentPayload). -/
structure Attachment where
  base64 : String
  mimeType : String
deriving DecidableEq, Repr

/-- A one-shot image-generation provider call as transmitted, recording the
number of reference images included. -/
inductive GenCall
  | openaiImageEdit (refImages : Nat)
  | openaiImageGenerate (model : String)
  | googleGenerate (model : String) (refImages : Nat)
deriving DecidableEq, Repr

/-- Observable outcome of generateImageFromPrompt: the provider calls
issued, in order, and the error thrown before any call, if any. -/
structure GenOutcome where
  calls : List GenCall
  thrown : Option String
deriving DecidableEq, Repr

/-- Image generation, translated from generateImageFromPrompt at
src/lib/ai/clients.ts lines 79-163. The apple branch throws before any call
is constructed. The openai branch with at least one supplied image calls
editOpenAIImage with only the first image (lines 92-98), which uploads
exactly one reference image in its multipart request (lines 262-271);
without images it issues a plain generation call. The google branch sends
one generateText call whose user content carries every supplied image with
non-empty base64 bytes (lines 127-130). Provider responses and the local
image cache are outside the model; the trace records the transmitted
calls. -/
def generateImageFromPrompt (provider : ProviderId) (model : String)
    (_prompt : String) (_apiKey : String) (images : List Attachment) : GenOutcome :=
  match provider with
  | .apple =>
    { calls := [], thrown := some "Image generation is not supported by Apple Intelligence." }
  | .openai =>
    if images.length > 0 then
      { calls := [GenCall.openaiImageEdit 1], thrown := none }
    else
      { calls := [GenCall.openaiImageGenerate model], thrown := none }
  | .google =>
    { calls := [GenCall.googleGenerate model ((images.filter (fun a => ¬a.base64 = "")).length)]
      thrown := none }

/-- A provider network call issued by one send turn. -/
inductive ProviderCall
  | stream (provider : ProviderId) (model : String)
  | image (c : GenCall)
deriving DecidableEq, Repr

/-- Observable outcome of one send turn: alert dialogs raised (title and
message, in order) and provider network calls issued, in order. -/
structure SendOutcome where
  alerts : List (String × String)
  providerCalls : List ProviderCall
deriving DecidableEq, Repr

/-- The reference-image preparation of send (app/chat/[id].tsx lines
65-67): keep attachments with non-empty base64 bytes, and for the openai
gpt-image-1 pair keep only the first. -/
def limitReferenceImages (provider : ProviderId) (modelId : String)
    (attachments : List Attachment) : List Attachment :=
  let referenceImages := attachments.filter (fun a => ¬a.base64 = "")
  if provider = .openai ∧ modelId = "gpt-image-1" then referenceImages.take 1
  else referenceImages

/-- One send turn, translated from send at app/chat/[id].tsx lines 57-161
on its deterministic path: the chat is loaded, no turn is in flight, and the
database writes and attachment caching succeed (those effects are outside
the model, which records alerts and provider calls). An all-whitespace
message returns at once. The reference images are prepared, the credential
is read from the store only when the registry requires one, and an empty
required credential raises the missing-key alert and returns before any
provider call. Otherwise the image branch issues the generateImageFromPrompt
calls when the registry marks the pair image-kind, the thrown error of that
dispatch surfacing through the catch-all alert, and the text branch issues
one streaming call. -/
def send (provider : ProviderId) (modelId : String)
    (providers : List ProviderDefinition) (text : String)
    (attachments : List Attachment) (storedKey : String) : SendOutcome :=
  let trimmed := jsTrimStr text
  if trimmed = "" then { alerts := [], providerCalls := [] }
  else
    let imageModelSelected := isImageModel provider modelId providers
    let referenceUploads := limitReferenceImages provider modelId attachments
    let requiresKey := providerRequiresApiKey provider providers
    let key := if requiresKey then storedKey else ""
    if requiresKey ∧ key = "" then
      { alerts := [("Missing API key", "Add your " ++ providerName provider ++ " key in Settings")]
        providerCalls := [] }
    else if imageModelSelected then
      let g := generateImageFromPrompt provider modelId trimmed key referenceUploads
      { alerts := match g.thrown with
          | some msg => [("Error", msg)]
          | none => []
        providerCalls := g.calls.map ProviderCall.image }
    else
      { alerts := [], providerCalls := [ProviderCall.stream provider modelId] }

/-- Message roles from the conversation store schema. -/
inductive Role
  | user
  | assistant
  | system
deriving DecidableEq, Repr

/-- A row of the messages table (src/lib/db/chat.ts lines 24-29). -/
structure MessageRow where
  id : String
  chatId : String
  role : Role
  content : String
  createdAt : Nat
deriving DecidableEq, Repr

/-- A row of the chats table (src/lib/db/chat.ts lines 5-12). -/
structure ChatRow where
  id : String
  title : String
  provider : ProviderId
  model : String
  createdAt : Nat
  updatedAt : Nat
deriving DecidableEq, Repr

/-- The conversation store state: the two tables. -/
structure DB where
  chats : List ChatRow
  messages : List MessageRow
deriving DecidableEq, Repr

/-- Chat deletion, translated from deleteChat at src/lib/db/chat.ts lines
70-74: delete every message row whose chatId matches, then the chat row
itself; each SQL delete keeps exactly the non-matching rows and succeeds
also when nothing matches. -/
def deleteChat (db : DB) (id : String) : DB :=
  { chats := db.chats.filter (fun c => ¬c.id = id)
    messages := db.messages.filter (fun m => ¬m.chatId = id) }

/-- The first line produced by the split. -/
def firstLineOf (l : List Char) : List Char := (splitLines l).headD []

/-- Collapse followed by trailing trim only; leading whitespace survives as
at most one space, which normLine additionally trims. -/
def nu (l : List Char) : List Char := wsTrimEnd (collapseWs l)

/-- The collapse-and-end-trim when the scan starts inside a whitespace run. -/
def nuT (l : List Char) : List Char := wsTrimEnd (collapseWsAux true l)

/-- The concatenation of a list of non-empty strings is empty only when the
list is empty. -/
theorem join_eq_empty_iff (l : List String) (h : ∀ s ∈ l, ¬s = "") :
    String.join l = "" ↔ l = [] := by
  rw [String.ext_iff]
  simp only [String.data_join]
  show (List.map String.data l).flatten = String.data "" ↔ _
  rw [show String.data "" = [] from rfl, List.flatten_eq_nil_iff]
  constructor
  · intro hall
    cases l with
    | nil => rfl
    | cons a as =>
      exfalso
      apply h a (by simp)
      have := hall a.data (by simp)
      cases a with
      | mk d => simp_all
  · intro hl; subst hl; simp

/-- Claim C10: for every model, prompt, credential and image list, calling
generateImageFromPrompt with the apple provider throws the fixed
not-supported error before any provider call is constructed or issued. -/
theorem C10_apple_image_generation_throws (model prompt apiKey : String)
    (images : List Attachment) :
    generateImageFromPrompt .apple model prompt apiKey images
      = { calls := []
          thrown := some "Image generation is not supported by Apple Intelligence." } := rfl

/-- Claim C3: whenever the registry requires a credential for the selected
provider and the stored credential is the empty string, a send of a
non-blank message raises exactly the missing-key alert naming the provider
and issues no provider network call, neither a text stream nor an image
generation call. -/
theorem C3_missing_credential_short_circuit (provider : ProviderId) (modelId : String)
    (providers : List ProviderDefinition) (text : String) (attachments : List Attachment)
    (storedKey : String)
    (hreq : providerRequiresApiKey provider providers = true)
    (hkey : storedKey = "") (htext : ¬jsTrimStr text = "") :
    send provider modelId providers text attachments storedKey
      = { alerts := [("Missing API key", "Add your " ++ providerName provider ++ " key in Settings")]
          providerCalls := [] } := by
  simp [send, htext, hreq, hkey]

/-- Witness for claim C3 at openai with an empty stored key. -/
theorem C3_missing_credential_short_circuit_witness :
    send .openai "gpt-5" CORE_PROVIDERS "hi" [] ""
      = { alerts := [("Missing API key", "Add your openai key in Settings")]
          providerCalls := [] } :=
  C3_missing_credential_short_circuit .openai "gpt-5" CORE_PROVIDERS "hi" [] ""
    (by decide) rfl (by decide)

/-- Claim C6: when the token stream completes with zero non-empty chunks,
streamReply requests the full non-streamed text exactly once and returns
it; when at least one non-empty chunk arrived, it performs no such
fallback request. -/
theorem C6_zero_token_fallback (run : StreamRun) :
    (run.chunks.filter (fun c => ¬c = "") = [] →
      (streamReply true run).fullTextRequests = 1 ∧
      ∀ t, run.fullText = some t → (streamReply true run).result = some t) ∧
    (¬run.chunks.filter (fun c => ¬c = "") = [] →
      (streamReply true run).fullTextRequests = 0) := by
  have hmem : ∀ s ∈ run.chunks.filter (fun c => ¬c = ""), ¬s = "" := by
    intro s hs
    simpa using (List.mem_filter.mp hs).2
  have hjoin := join_eq_empty_iff _ hmem
  constructor
  · intro hnil
    have hacc : String.join (run.chunks.filter (fun c => ¬c = "")) = "" := hjoin.mpr hnil
    have hcond : ¬¬String.join (run.chunks.filter (fun c => ¬c = "")) = "" := by
      simpa using hacc
    constructor
    · simp only [streamReply, Bool.not_true, Bool.false_eq_true, if_false]
      rw [if_neg hcond]
    · intro t ht
      simp only [streamReply, Bool.not_true, Bool.false_eq_true, if_false]
      rw [if_neg hcond]
      simp [ht]
  · intro hne
    have hacc : ¬String.join (run.chunks.filter (fun c => ¬c = "")) = "" := by
      intro hc; exact hne (hjoin.mp hc)
    simp only [streamReply, Bool.not_true, Bool.false_eq_true, if_false]
    rw [if_pos hacc]

/-- Witness for claim C6 at a stream of two empty chunks. -/
theorem C6_zero_token_fallback_witness :
    (streamReply true { chunks := ["", ""], fullText := some "full" }).fullTextRequests = 1 ∧
    (streamReply true { chunks := ["", ""], fullText := some "full" }).result = some "full" := by
  have h := (C6_zero_token_fallback { chunks := ["", ""], fullText := some "full" }).1 (by decide)
  exact ⟨h.1, h.2 "full" rfl⟩

/-- Claim C9: for every token stream with at least one non-empty chunk, the
onToken payloads are exactly the non-empty chunks in order, empty chunks
producing no callback, and the returned final text is the concatenation of
exactly those payloads. -/
theorem C9_result_is_concat_of_payloads (run : StreamRun)
    (hne : ¬run.chunks.filter (fun c => ¬c = "") = []) :
    (streamReply true run).callbacks = run.chunks.filter (fun c => ¬c = "") ∧
    (streamReply true run).result = some (String.join ((streamReply true run).callbacks)) := by
  have hmem : ∀ s ∈ run.chunks.filter (fun c => ¬c = ""), ¬s = "" := by
    intro s hs
    simpa using (List.mem_filter.mp hs).2
  have hacc : ¬String.join (run.chunks.filter (fun c => ¬c = "")) = "" := by
    intro hc; exact hne ((join_eq_empty_iff _ hmem).mp hc)
  simp only [streamReply, Bool.not_true, Bool.false_eq_true, if_false]
  rw [if_pos hacc]
  exact ⟨rfl, rfl⟩

/-- Witness for claim C9 at a stream with one interior empty chunk. -/
theorem C9_result_is_concat_of_payloads_witness :
    (streamReply true { chunks := ["Hel", "", "lo"], fullText := none }).callbacks = ["Hel", "lo"] ∧
    (streamReply true { chunks := ["Hel", "", "lo"], fullText := none }).result
      = some (String.join ["Hel", "lo"]) := by
  have h := C9_result_is_concat_of_payloads { chunks := ["Hel", "", "lo"], fullText := none }
    (by decide)
  refine ⟨by decide, ?_⟩
  rw [h.2, h.1]
  decide

/-- Claim C1, counterexample: for the stream of chunks Hel, lo and space
world, the onToken payload sequence of streamReply is those three deltas
themselves and not the accumulated sequence Hel, Hello, Hello world that
the claim states; the returned final text is Hello world. -/
theorem C1_counterexample_payloads_are_deltas :
    (streamReply true { chunks := ["Hel", "lo", " world"], fullText := none }).callbacks
        = ["Hel", "lo", " world"] ∧
    ¬(streamReply true { chunks := ["Hel", "lo", " world"], fullText := none }).callbacks
        = ["Hel", "Hello", "Hello world"] ∧
    (streamReply true { chunks := ["Hel", "lo", " world"], fullText := none }).result
        = some "Hello world" := by
  refine ⟨by decide, by decide, ?_⟩
  decide

/-- Claim C1 (amended): for every stream of non-empty chunks the
incremental callback is invoked exactly once per chunk in stream order and
the i-th payload is the delta chunk itself; the returned final text is the
concatenation of all payloads. The caller of the chat screen accumulates
the deltas, so the assistant content it displays after the i-th callback is
the concatenation of the first i payloads, which for the example stream is
the sequence Hel, Hello, Hello world. -/
theorem C1_amended_stream_payloads :
    (∀ (chunks : List String) (fullText : Option String),
      (∀ c ∈ chunks, ¬c = "") → ¬chunks = [] →
      (streamReply true { chunks := chunks, fullText := fullText }).callbacks = chunks ∧
      (streamReply true { chunks := chunks, fullText := fullText }).fullTextRequests = 0 ∧
      (streamReply true { chunks := chunks, fullText := fullText }).result
        = some (String.join chunks)) ∧
    callerContents ["Hel", "lo", " world"] = ["Hel", "Hello", "Hello world"] := by
  constructor
  · intro chunks fullText hall hne
    have hfilter : chunks.filter (fun c => ¬c = "") = chunks := by
      rw [List.filter_eq_self]
      intro a ha
      simpa using hall a ha
    have hacc : ¬String.join chunks = "" := by
      intro hc
      exact hne ((join_eq_empty_iff chunks hall).mp hc)
    have hacc2 : ¬String.join (chunks.filter (fun c => ¬c = "")) = "" := by
      rw [hfilter]; exact hacc
    simp only [streamReply, Bool.not_true, Bool.false_eq_true, if_false]
    rw [if_pos hacc2, hfilter]
    exact ⟨rfl, rfl, rfl⟩
  · decide

/-- Witness for claim C1 at the example stream. -/
theorem C1_amended_stream_payloads_witness :
    (streamReply true { chunks := ["Hel", "lo", " world"], fullText := none }).callbacks
        = ["Hel", "lo", " world"] ∧
    (streamReply true { chunks := ["Hel", "lo", " world"], fullText := none }).result
        = some (String.join ["Hel", "lo", " world"]) := by
  have h := C1_amended_stream_payloads.1 ["Hel", "lo", " world"] none (by decide) (by decide)
  exact ⟨h.1, h.2.2⟩

/-- Claim C2, evaluation at the failing input: the openai gpt-image-1 pair
is absent from the provider registry, so isImageModel returns false and a
send carrying three reference images takes the text branch and issues no
image call at all; the send-side truncation of the reference list to one
image and the one-image openai edit call match the claim but are
unreachable. -/
theorem C2_gpt_image_1_unregistered_dead_truncation :
    isImageModel .openai "gpt-image-1" CORE_PROVIDERS = false ∧
    getModelInfo .openai "gpt-image-1" CORE_PROVIDERS = none ∧
    ¬pairRegistered .openai "gpt-image-1" CORE_PROVIDERS ∧
    (send .openai "gpt-image-1" CORE_PROVIDERS "Draw a cat"
        [⟨"b1", "image/png"⟩, ⟨"b2", "image/png"⟩, ⟨"b3", "image/png"⟩] "sk-test").providerCalls
      = [ProviderCall.stream .openai "gpt-image-1"] ∧
    (limitReferenceImages .openai "gpt-image-1"
        [⟨"b1", "image/png"⟩, ⟨"b2", "image/png"⟩, ⟨"b3", "image/png"⟩]).length = 1 ∧
    (generateImageFromPrompt .openai "gpt-image-1" "Draw a cat" "sk-test"
        (limitReferenceImages .openai "gpt-image-1"
          [⟨"b1", "image/png"⟩, ⟨"b2", "image/png"⟩, ⟨"b3", "image/png"⟩])).calls
      = [GenCall.openaiImageEdit 1] := by
  refine ⟨by decide, by decide, by decide, ?_, by decide, by decide⟩
  decide

/-- Claim C7: after deleteChat no message of the deleted chat remains in
the store, and a second deleteChat with the same id is a no-op that leaves
the store unchanged and completes without error. -/
theorem C7_deleteChat_no_orphans_idempotent (db : DB) (id : String) :
    (∀ m ∈ (deleteChat db id).messages, ¬m.chatId = id) ∧
    deleteChat (deleteChat db id) id = deleteChat db id := by
  constructor
  · intro m hm
    have := (List.mem_filter.mp hm).2
    simpa using this
  · simp [deleteChat, List.filter_filter]

/-- Witness for claim C7 at a two-chat store. -/
theorem C7_deleteChat_no_orphans_idempotent_witness :
    ¬({ id := "m2", chatId := "c2", role := .user, content := "hello", createdAt := 2 }
        : MessageRow).chatId = "c1" ∧
    deleteChat (deleteChat
        { chats := [⟨"c1", "New Chat", .openai, "gpt-5", 0, 0⟩, ⟨"c2", "T", .google, "gemini-2.5-pro", 1, 1⟩]
          messages := [⟨"m1", "c1", .user, "hi", 1⟩, ⟨"m2", "c2", .user, "hello", 2⟩] } "c1") "c1"
      = deleteChat
        { chats := [⟨"c1", "New Chat", .openai, "gpt-5", 0, 0⟩, ⟨"c2", "T", .google, "gemini-2.5-pro", 1, 1⟩]
          messages := [⟨"m1", "c1", .user, "hi", 1⟩, ⟨"m2", "c2", .user, "hello", 2⟩] } "c1" := by
  refine ⟨?_, (C7_deleteChat_no_orphans_idempotent _ "c1").2⟩
  exact (C7_deleteChat_no_orphans_idempotent
    { chats := [⟨"c1", "New Chat", .openai, "gpt-5", 0, 0⟩, ⟨"c2", "T", .google, "gemini-2.5-pro", 1, 1⟩]
      messages := [⟨"m1", "c1", .user, "hi", 1⟩, ⟨"m2", "c2", .user, "hello", 2⟩] } "c1").1
    ⟨"m2", "c2", .user, "hello", 2⟩ (by decide)

/-- Claim C8: for every provider and model pair not present in the
registry snapshot, getModelInfo returns the absent value and isImageModel
returns false, both total functions; consequently a send of a non-blank
message against such a pair, with its credential requirement satisfied,
proceeds with exactly the streaming text call instead of failing hard. -/
theorem C8_unregistered_pair_soft_fallback (providerId : ProviderId) (modelId : String)
    (providers : List ProviderDefinition)
    (hmiss : ¬pairRegistered providerId modelId providers) :
    getModelInfo providerId modelId providers = none ∧
    isImageModel providerId modelId providers = false ∧
    ∀ (text : String) (attachments : List Attachment) (storedKey : String),
      ¬jsTrimStr text = "" →
      (providerRequiresApiKey providerId providers = false ∨ ¬storedKey = "") →
      (send providerId modelId providers text attachments storedKey).providerCalls
        = [ProviderCall.stream providerId modelId] := by
  have hinfo : getModelInfo providerId modelId providers = none := by
    unfold getModelInfo
    cases hfind : findProvider providers providerId with
    | none => rfl
    | some p =>
      rw [List.find?_eq_none]
      intro m hm hmid
      apply hmiss
      refine ⟨p, List.mem_of_find?_eq_some hfind, ?_, m, hm, by simpa using hmid⟩
      have := List.find?_some hfind
      simpa using this
  have himg : isImageModel providerId modelId providers = false := by
    unfold isImageModel
    rw [hinfo]
  refine ⟨hinfo, himg, ?_⟩
  intro text attachments storedKey htext hkey
  have hcond : ¬(providerRequiresApiKey providerId providers = true ∧
      (if providerRequiresApiKey providerId providers = true then storedKey else "") = "") := by
    rcases hkey with hfalse | hne
    · intro hc
      rw [hfalse] at hc
      exact absurd hc.1 (by simp)
    · intro hc
      rw [if_pos hc.1] at hc
      exact hne hc.2
  simp only [send]
  rw [if_neg htext, if_neg hcond, if_neg (by simp [himg])]

/-- Witness for claim C8 at an unregistered openai model id. -/
theorem C8_unregistered_pair_soft_fallback_witness :
    getModelInfo .openai "gpt-4o" CORE_PROVIDERS = none ∧
    isImageModel .openai "gpt-4o" CORE_PROVIDERS = false ∧
    (send .openai "gpt-4o" CORE_PROVIDERS "hi" [] "sk-test").providerCalls
      = [ProviderCall.stream .openai "gpt-4o"] := by
  have h := C8_unregistered_pair_soft_fallback .openai "gpt-4o" CORE_PROVIDERS (by decide)
  exact ⟨h.1, h.2.1, h.2.2 "hi" [] "sk-test" (by decide) (Or.inr (by decide))⟩

/-- Every query the bracketed-tag scan collects is non-empty: queries are
pushed only after a trim that is checked non-empty. -/
theorem scanTagsAux_queries_ne_empty (fuel : Nat) :
    ∀ (l : List Char) (q : String), q ∈ (scanTagsAux fuel l).2 → ¬q = "" := by
  induction fuel with
  | zero => intro l q hq; simp [scanTagsAux] at hq
  | succ fuel ih =>
    intro l q hq
    cases l with
    | nil => simp [scanTagsAux] at hq
    | cons c rest =>
      by_cases hbr : c = '[' ∧ rest.head? = some '['
      · rw [scanTagsAux, if_pos hbr] at hq
        cases hp : parseTag rest.tail with
        | none =>
          rw [hp] at hq
          exact ih rest q hq
        | some pr =>
          rw [hp] at hq
          simp only at hq
          rcases List.mem_append.mp hq with hq1 | hq2
          · by_cases hempty : (jsTrim pr.1).isEmpty
            · rw [if_pos hempty] at hq1
              simp at hq1
            · rw [if_neg hempty] at hq1
              have : q = String.mk (jsTrim pr.1) := by simpa using hq1
              subst this
              intro hc
              apply hempty
              have : jsTrim pr.1 = [] := by
                have := congrArg String.data hc
                simpa using this
              simp [this]
          · exact ih pr.2 q hq2
      · rw [scanTagsAux, if_neg hbr] at hq
        exact ih rest q hq

/-- Claim C5: each bracketed search or web tag is extracted
case-insensitively as a query and replaced by one space, whitespace then
collapsed, as the first and third conjuncts show; with no bracketed query
collected, a whole-message prefix form yields exactly one query and an
empty sanitized text, and text before the prefix defeats it; every
extracted query is non-empty. -/
theorem C5_search_directive_parsing :
    parseSearchDirectives "Tell me about [[search:rust ownership]] please".data
      = ("Tell me about please".data, ["rust ownership"]) ∧
    parseSearchDirectives "search: weather in Tokyo".data
      = ([], ["weather in Tokyo"]) ∧
    parseSearchDirectives "[[WEB:rust]] and [[Search:lean]] ok".data
      = ("and ok".data, ["rust", "lean"]) ∧
    parseSearchDirectives "x search: y".data
      = ("x search: y".data, []) ∧
    parseSearchDirectives "WEB:cats".data = ([], ["cats"]) ∧
    ∀ (l : List Char) (q : String), q ∈ (parseSearchDirectives l).2 → ¬q = "" := by
  refine ⟨by decide, by decide, by decide, by decide, by decide, ?_⟩
  intro l q hq
  unfold parseSearchDirectives at hq
  by_cases hscan : (scanTags l).2.isEmpty
  · rw [if_pos hscan] at hq
    cases hm : matchInlineSearch l with
    | none =>
      rw [hm] at hq
      simp at hq
    | some captured =>
      rw [hm] at hq
      simp only at hq
      by_cases hcap : (jsTrim captured).isEmpty
      · rw [if_pos hcap] at hq
        simp at hq
      · rw [if_neg hcap] at hq
        have : q = String.mk (jsTrim captured) := by simpa using hq
        subst this
        intro hc
        apply hcap
        have : jsTrim captured = [] := by
          have := congrArg String.data hc
          simpa using this
        simp [this]
  · rw [if_neg hscan] at hq
    simp only at hq
    exact scanTagsAux_queries_ne_empty l.length l q hq

/-- Witness for claim C5: the query extracted from the prefix form is
non-empty. -/
theorem C5_search_directive_parsing_witness :
    ¬("weather in Tokyo" : String) = "" := by
  exact C5_search_directive_parsing.2.2.2.2.2 "search: weather in Tokyo".data
    "weather in Tokyo" (by decide)

/-- Claim C4, counterexample: for a 57-character single-line input whose
47th character is a space, the derived title is the first 46 characters
followed by the ellipsis, because the source trims trailing whitespace off
the 47-character cut before appending the ellipsis; it is not the first 47
characters followed by the ellipsis as the claim states. -/
theorem C4_counterexample_truncation_trims_trailing_space :
    deriveChatTitleFromMessage (List.replicate 46 'x' ++ [' '] ++ List.replicate 10 'y')
      = some (List.replicate 46 'x' ++ ['…']) ∧
    ¬(List.replicate 46 'x' ++ ['…'])
      = (List.replicate 46 'x' ++ [' '] ++ List.replicate 10 'y').take 47 ++ ['…'] := by
  constructor
  · decide
  · decide


theorem wsTrimEnd_eq_nil_iff (l : List Char) : wsTrimEnd l = [] ↔ allWs l = true := by
  simp [wsTrimEnd, allWs, List.dropWhile_eq_nil_iff, List.all_eq_true]

theorem wsTrimStart_eq_nil_iff (l : List Char) : wsTrimStart l = [] ↔ allWs l = true := by
  simp [wsTrimStart, allWs, List.dropWhile_eq_nil_iff, List.all_eq_true]

theorem allWs_append (a b : List Char) : allWs (a ++ b) = (allWs a && allWs b) := by
  simp [allWs, List.all_append]

theorem jsTrim_eq_nil_iff (l : List Char) : jsTrim l = [] ↔ allWs l = true := by
  unfold jsTrim
  rw [wsTrimEnd_eq_nil_iff]
  constructor
  · intro h
    have hsplit := List.takeWhile_append_dropWhile isWs l
    have heq : allWs l = (allWs (List.takeWhile isWs l) && allWs (wsTrimStart l)) := by
      rw [← allWs_append]
      unfold wsTrimStart
      rw [hsplit]
    have htake : allWs (List.takeWhile isWs l) = true := by
      simp only [allWs, List.all_eq_true]
      intro x hx
      exact List.mem_takeWhile_imp hx
    rw [heq, h, htake]
    rfl
  · intro h
    have h0 : wsTrimStart l = [] := (wsTrimStart_eq_nil_iff l).mpr h
    rw [h0]
    rfl

theorem wsTrimEnd_cons_of_not_allWs (a : Char) (z : List Char) (hz : ¬allWs z = true) :
    wsTrimEnd (a :: z) = a :: wsTrimEnd z := by
  unfold wsTrimEnd
  rw [List.reverse_cons, List.dropWhile_append]
  have hne : ¬(List.dropWhile isWs z.reverse).isEmpty = true := by
    rw [List.isEmpty_iff]
    intro hnil
    apply hz
    have hmem := List.dropWhile_eq_nil_iff.mp hnil
    simp only [allWs, List.all_eq_true]
    intro x hx
    exact hmem x (by simpa using hx)
  rw [if_neg hne]
  simp

theorem wsTrimEnd_cons_of_not_ws (a : Char) (z : List Char) (ha : ¬isWs a = true) :
    wsTrimEnd (a :: z) = a :: wsTrimEnd z := by
  by_cases hz : allWs z = true
  · have hznil : wsTrimEnd z = [] := (wsTrimEnd_eq_nil_iff z).mpr hz
    unfold wsTrimEnd
    rw [List.reverse_cons, List.dropWhile_append]
    have hnil : (List.dropWhile isWs z.reverse).isEmpty = true := by
      rw [List.isEmpty_iff, List.dropWhile_eq_nil_iff]
      intro x hx
      simp only [allWs, List.all_eq_true] at hz
      exact hz x (by simpa using hx)
    rw [if_pos hnil]
    rw [List.dropWhile_cons_of_neg ha]
    unfold wsTrimEnd at hznil
    simp [hznil]
  · exact wsTrimEnd_cons_of_not_allWs a z hz

theorem jsTrim_cons_ws (c : Char) (l : List Char) (hc : isWs c = true) :
    jsTrim (c :: l) = jsTrim l := by
  unfold jsTrim wsTrimStart
  rw [List.dropWhile_cons_of_pos hc]

theorem jsTrim_cons_not_ws (c : Char) (l : List Char) (hc : ¬isWs c = true) :
    jsTrim (c :: l) = c :: wsTrimEnd l := by
  unfold jsTrim wsTrimStart
  rw [List.dropWhile_cons_of_neg hc]
  exact wsTrimEnd_cons_of_not_ws c l hc

/-- Collapsing whitespace runs preserves the all-whitespace test. -/
theorem allWs_collapseWsAux : ∀ (l : List Char) (b : Bool),
    allWs (collapseWsAux b l) = allWs l := by
  intro l
  induction l with
  | nil => intro b; rfl
  | cons c rest ih =>
    intro b
    by_cases hc : isWs c = true
    · cases b with
      | true =>
        rw [collapseWsAux, if_pos hc, if_pos rfl, ih true]
        simp [allWs, hc]
      | false =>
        rw [collapseWsAux, if_pos hc]
        simp only [Bool.false_eq_true, if_false]
        have hsp : isWs ' ' = true := by decide
        have h1 : allWs (' ' :: collapseWsAux true rest) = allWs (collapseWsAux true rest) := by
          simp [allWs, hsp]
        have h2 : allWs (c :: rest) = allWs rest := by simp [allWs, hc]
        rw [h1, h2, ih true]
    · rw [collapseWsAux, if_neg hc]
      simp [allWs, hc]

/-- Starting the collapse inside or outside a run does not change the
trimmed result. -/
theorem jsTrim_collapseWsAux_true (l : List Char) :
    jsTrim (collapseWsAux true l) = jsTrim (collapseWsAux false l) := by
  cases l with
  | nil => rfl
  | cons d l' =>
    by_cases hd : isWs d = true
    · rw [collapseWsAux, if_pos hd, if_pos rfl]
      rw [collapseWsAux, if_pos hd]
      simp only [Bool.false_eq_true, if_false]
      rw [jsTrim_cons_ws ' ' _ (by decide)]
    · rw [collapseWsAux, if_neg hd, collapseWsAux, if_neg hd]

/-- A leading whitespace character does not change the normalised line. -/
theorem normLine_cons_ws (c : Char) (l : List Char) (hc : isWs c = true) :
    normLine (c :: l) = normLine l := by
  unfold normLine collapseWs
  rw [collapseWsAux, if_pos hc]
  simp only [Bool.false_eq_true, if_false]
  rw [jsTrim_cons_ws ' ' _ (by decide), jsTrim_collapseWsAux_true]


theorem nu_eq_nil_iff (l : List Char) : nu l = [] ↔ allWs l = true := by
  unfold nu collapseWs
  rw [wsTrimEnd_eq_nil_iff, allWs_collapseWsAux]

theorem nuT_eq_nil_iff (l : List Char) : nuT l = [] ↔ allWs l = true := by
  unfold nuT
  rw [wsTrimEnd_eq_nil_iff, allWs_collapseWsAux]

/-- On a non-whitespace head the normalised line is that head followed by
the collapse-and-end-trim of the tail. -/
theorem normLine_cons_not_ws (c : Char) (l : List Char) (hc : ¬isWs c = true) :
    normLine (c :: l) = c :: nu l := by
  unfold normLine collapseWs nu
  rw [collapseWsAux, if_neg hc]
  rw [jsTrim_cons_not_ws c _ hc]
  rfl

theorem nu_cons_not_ws (c : Char) (l : List Char) (hc : ¬isWs c = true) :
    nu (c :: l) = c :: nu l := by
  unfold nu collapseWs
  rw [collapseWsAux, if_neg hc]
  exact wsTrimEnd_cons_of_not_ws c _ hc

theorem nuT_cons_ws (d : Char) (l : List Char) (hd : isWs d = true) :
    nuT (d :: l) = nuT l := by
  unfold nuT
  rw [collapseWsAux, if_pos hd, if_pos rfl]

theorem nuT_cons_not_ws (d : Char) (l : List Char) (hd : ¬isWs d = true) :
    nuT (d :: l) = nu (d :: l) := by
  unfold nuT nu collapseWs
  rw [collapseWsAux, if_neg hd, collapseWsAux, if_neg hd]

theorem nu_cons_ws (c : Char) (l : List Char) (hc : isWs c = true) :
    nu (c :: l) = if allWs l = true then [] else ' ' :: nuT l := by
  unfold nu collapseWs
  rw [collapseWsAux, if_pos hc]
  simp only [Bool.false_eq_true, if_false]
  by_cases hl : allWs l = true
  · rw [if_pos hl]
    rw [wsTrimEnd_eq_nil_iff]
    have hx : allWs (collapseWsAux true l) = true := by
      rw [allWs_collapseWsAux]; exact hl
    have hsp : isWs ' ' = true := by decide
    simp only [allWs, List.all_cons, hsp, Bool.true_and]
    exact hx
  · rw [if_neg hl]
    apply wsTrimEnd_cons_of_not_allWs
    rw [allWs_collapseWsAux]
    exact hl

/-- Line splitting never produces an empty list of lines. -/
theorem splitLines_ne_nil : ∀ (l : List Char), ¬splitLines l = [] := by
  intro l
  induction l with
  | nil => simp [splitLines]
  | cons c rest ih =>
    rw [splitLines]
    by_cases h1 : c = '\n'
    · rw [if_pos h1]; simp
    · rw [if_neg h1]
      by_cases h2 : c = '\r' ∧ rest.head? = some '\n'
      · rw [if_pos h2]; exact ih
      · rw [if_neg h2]
        cases hs : splitLines rest with
        | nil => exact absurd hs ih
        | cons a t => simp


/-- The split of a list whose head opens no line break. -/
theorem splitLines_cons_default (c : Char) (rest : List Char)
    (h1 : ¬c = '\n') (h2 : ¬(c = '\r' ∧ rest.head? = some '\n')) :
    splitLines (c :: rest) = (c :: firstLineOf rest) :: (splitLines rest).tail := by
  rw [splitLines, if_neg h1, if_neg h2]
  cases hs : splitLines rest with
  | nil => exact absurd hs (splitLines_ne_nil rest)
  | cons a t => simp [firstLineOf, hs]

/-- Every character of every line comes from the split input. -/
theorem mem_of_mem_splitLines :
    ∀ (l : List Char) (line : List Char), line ∈ splitLines l →
      ∀ c ∈ line, c ∈ l := by
  intro l
  induction l with
  | nil =>
    intro line hline c hc
    simp [splitLines] at hline
    subst hline
    simp at hc
  | cons d rest ih =>
    intro line hline c hc
    rw [splitLines] at hline
    by_cases h1 : d = '\n'
    · rw [if_pos h1] at hline
      rcases List.mem_cons.mp hline with h | h
      · subst h; simp at hc
      · exact List.mem_cons_of_mem d (ih line h c hc)
    · rw [if_neg h1] at hline
      by_cases h2 : d = '\r' ∧ rest.head? = some '\n'
      · rw [if_pos h2] at hline
        exact List.mem_cons_of_mem d (ih line hline c hc)
      · rw [if_neg h2] at hline
        cases hs : splitLines rest with
        | nil => exact absurd hs (splitLines_ne_nil rest)
        | cons a t =>
          rw [hs] at hline
          rcases List.mem_cons.mp hline with h | h
          · subst h
            rcases List.mem_cons.mp hc with h | h
            · subst h; simp
            · exact List.mem_cons_of_mem d (ih a (by rw [hs]; simp) c h)
          · exact List.mem_cons_of_mem d (ih line (by rw [hs]; simp [h]) c hc)

/-- On all-whitespace input every line is all-whitespace, so no content line
is found. -/
theorem findContentLine_eq_none_of_allWs (l : List Char) (h : allWs l = true) :
    findContentLine l = none := by
  unfold findContentLine
  rw [List.find?_eq_none]
  intro line hline
  have hws : allWs line = true := by
    simp only [allWs, List.all_eq_true] at h ⊢
    intro x hx
    exact h x (mem_of_mem_splitLines l line hline x hx)
  have : jsTrim line = [] := (jsTrim_eq_nil_iff line).mpr hws
  simp [this]

/-- The all-whitespace test on a cons. -/
theorem allWs_cons (c : Char) (l : List Char) :
    allWs (c :: l) = (isWs c && allWs l) := rfl

/-- Input with a non-whitespace character has a line with one. -/
theorem exists_not_allWs_line :
    ∀ (l : List Char), ¬allWs l = true →
      ∃ line ∈ splitLines l, ¬allWs line = true := by
  intro l
  induction l with
  | nil => intro h; exact absurd rfl h
  | cons d rest ih =>
    intro h
    by_cases hd : isWs d = true
    · have hrest : ¬allWs rest = true := by
        intro hr
        exact h (by rw [allWs_cons, hd, hr]; rfl)
      by_cases h1 : d = '\n'
      · obtain ⟨line, hline, hnw⟩ := ih hrest
        exact ⟨line, by rw [splitLines, if_pos h1]; simp [hline], hnw⟩
      · by_cases h2 : d = '\r' ∧ rest.head? = some '\n'
        · obtain ⟨line, hline, hnw⟩ := ih hrest
          exact ⟨line, by rw [splitLines, if_neg h1, if_pos h2]; exact hline, hnw⟩
        · obtain ⟨line, hline, hnw⟩ := ih hrest
          rw [splitLines_cons_default d rest h1 h2]
          cases hs : splitLines rest with
          | nil => exact absurd hs (splitLines_ne_nil rest)
          | cons a t =>
            rw [hs] at hline
            rcases List.mem_cons.mp hline with hh | hh
            · refine ⟨d :: firstLineOf rest, by simp, ?_⟩
              have hfl : firstLineOf rest = a := by simp [firstLineOf, hs]
              rw [allWs_cons, hfl, ← hh]
              intro hand
              exact hnw ((Bool.and_eq_true _ _ |>.mp hand).2)
            · refine ⟨line, ?_, hnw⟩
              simp only [hs, List.tail_cons]
              exact List.mem_cons_of_mem _ hh
    · by_cases h1 : d = '\n'
      · exact absurd (by rw [h1]; decide) hd
      · by_cases h2 : d = '\r' ∧ rest.head? = some '\n'
        · exact absurd (by rw [h2.1]; decide) hd
        · rw [splitLines_cons_default d rest h1 h2]
          refine ⟨d :: firstLineOf rest, by simp, ?_⟩
          rw [allWs_cons]
          intro hand
          exact hd ((Bool.and_eq_true _ _ |>.mp hand).1)

/-- Input with a non-whitespace character yields a found content line. -/
theorem findContentLine_ne_none_of_not_allWs (l : List Char) (h : ¬allWs l = true) :
    ¬findContentLine l = none := by
  intro hnone
  obtain ⟨line, hline, hnw⟩ := exists_not_allWs_line l h
  unfold findContentLine at hnone
  have := List.find?_eq_none.mp hnone line hline
  apply hnw
  have hempty : (jsTrim line).isEmpty = true := by
    revert this
    cases (jsTrim line).isEmpty <;> simp
  rw [← jsTrim_eq_nil_iff]
  exact List.isEmpty_iff.mp hempty

/-- The split is its first line followed by the remaining lines. -/
theorem splitLines_eq_head_cons (l : List Char) :
    splitLines l = firstLineOf l :: (splitLines l).tail := by
  cases hs : splitLines l with
  | nil => exact absurd hs (splitLines_ne_nil l)
  | cons a t => simp [firstLineOf, hs]

/-- A whitespace character prepended to the first candidate line does not
change which normalised content line the find produces. -/
theorem find_content_ws_head (c : Char) (hc : isWs c = true) (F : List Char)
    (T : List (List Char)) :
    Option.map normLine (List.find? (fun x => !(jsTrim x).isEmpty) ((c :: F) :: T))
      = Option.map normLine (List.find? (fun x => !(jsTrim x).isEmpty) (F :: T)) := by
  by_cases hF : (!(jsTrim F).isEmpty) = true
  · rw [@List.find?_cons_of_pos _ (fun x => !(jsTrim x).isEmpty) (c :: F) T
        (by show (!(jsTrim (c :: F)).isEmpty) = true; rw [jsTrim_cons_ws c F hc]; exact hF),
      @List.find?_cons_of_pos _ (fun x => !(jsTrim x).isEmpty) F T hF]
    simp [normLine_cons_ws c F hc]
  · rw [@List.find?_cons_of_neg _ (fun x => !(jsTrim x).isEmpty) (c :: F) T
        (by show ¬(!(jsTrim (c :: F)).isEmpty) = true; rw [jsTrim_cons_ws c F hc]; exact hF),
      @List.find?_cons_of_neg _ (fun x => !(jsTrim x).isEmpty) F T hF]

/-- An all-whitespace list keeps its first line all-whitespace. -/
theorem allWs_firstLineOf_of_allWs (l : List Char) (h : allWs l = true) :
    allWs (firstLineOf l) = true := by
  have hmem : firstLineOf l ∈ splitLines l := by
    rw [splitLines_eq_head_cons l]
    simp
  simp only [allWs, List.all_eq_true] at h ⊢
  intro x hx
  exact h x (mem_of_mem_splitLines l _ hmem x hx)

/-- Prepending all-whitespace text does not change the normalised content
line the find produces. -/
theorem findContent_ws_prepend :
    ∀ (n : Nat) (s l : List Char), s.length ≤ n → allWs s = true →
      Option.map normLine (findContentLine (s ++ l))
        = Option.map normLine (findContentLine l) := by
  intro n
  induction n with
  | zero =>
    intro s l hlen _
    have : s = [] := List.eq_nil_of_length_eq_zero (Nat.le_zero.mp hlen)
    rw [this]
    rfl
  | succ n ihn =>
    intro s l hlen hs
    cases s with
    | nil => rfl
    | cons c s' =>
      have hc : isWs c = true := ((Bool.and_eq_true _ _).mp (by rw [← allWs_cons]; exact hs)).1
      have hs' : allWs s' = true := ((Bool.and_eq_true _ _).mp (by rw [← allWs_cons]; exact hs)).2
      have hlen' : s'.length ≤ n := by simp at hlen; omega
      show Option.map normLine (findContentLine (c :: (s' ++ l))) = _
      by_cases h1 : c = '\n'
      · unfold findContentLine
        rw [splitLines, if_pos h1, List.find?_cons_of_neg _ (by decide)]
        exact ihn s' l hlen' hs'
      · by_cases h2 : c = '\r' ∧ (s' ++ l).head? = some '\n'
        · unfold findContentLine
          rw [splitLines, if_neg h1, if_pos h2]
          exact ihn s' l hlen' hs'
        · unfold findContentLine
          rw [splitLines_cons_default c (s' ++ l) h1 h2]
          rw [find_content_ws_head c hc _ _]
          rw [← splitLines_eq_head_cons (s' ++ l)]
          exact ihn s' l hlen' hs'

/-- Appending all-whitespace text changes neither the normalised content
line the find produces nor the collapse-and-end-trim of the first line. -/
theorem findContent_append_ws :
    ∀ (n : Nat) (l s : List Char), l.length ≤ n → allWs s = true →
      (Option.map normLine (findContentLine (l ++ s))
          = Option.map normLine (findContentLine l)) ∧
      nu (firstLineOf (l ++ s)) = nu (firstLineOf l) ∧
      nuT (firstLineOf (l ++ s)) = nuT (firstLineOf l) := by
  intro n
  induction n with
  | zero =>
    intro l s hlen hs
    have hl : l = [] := List.eq_nil_of_length_eq_zero (Nat.le_zero.mp hlen)
    subst hl
    refine ⟨?_, ?_, ?_⟩
    · rw [List.nil_append]
      rw [findContentLine_eq_none_of_allWs s hs]
      rfl
    · rw [List.nil_append]
      rw [(nu_eq_nil_iff _).mpr (allWs_firstLineOf_of_allWs s hs)]
      rfl
    · rw [List.nil_append]
      rw [(nuT_eq_nil_iff _).mpr (allWs_firstLineOf_of_allWs s hs)]
      rfl
  | succ n ihn =>
    intro l s hlen hs
    cases l with
    | nil =>
      refine ⟨?_, ?_, ?_⟩
      · rw [List.nil_append, findContentLine_eq_none_of_allWs s hs]
        rfl
      · rw [List.nil_append, (nu_eq_nil_iff _).mpr (allWs_firstLineOf_of_allWs s hs)]
        rfl
      · rw [List.nil_append, (nuT_eq_nil_iff _).mpr (allWs_firstLineOf_of_allWs s hs)]
        rfl
    | cons c rest =>
      have hlen' : rest.length ≤ n := by simp at hlen; omega
      obtain ⟨ih1, ih2, ih3⟩ := ihn rest s hlen' hs
      show (Option.map normLine (findContentLine (c :: (rest ++ s))) = _) ∧
        (nu (firstLineOf (c :: (rest ++ s))) = _) ∧
        (nuT (firstLineOf (c :: (rest ++ s))) = _)
      by_cases h1 : c = '\n'
      · have hsplit1 : splitLines (c :: (rest ++ s)) = [] :: splitLines (rest ++ s) := by
          rw [splitLines, if_pos h1]
        have hsplit2 : splitLines (c :: rest) = [] :: splitLines rest := by
          rw [splitLines, if_pos h1]
        refine ⟨?_, ?_, ?_⟩
        · unfold findContentLine
          rw [hsplit1, hsplit2,
            List.find?_cons_of_neg _ (by decide), List.find?_cons_of_neg _ (by decide)]
          exact ih1
        · unfold firstLineOf
          rw [hsplit1, hsplit2]
          rfl
        · unfold firstLineOf
          rw [hsplit1, hsplit2]
          rfl
      · by_cases h2 : c = '\r' ∧ (rest ++ s).head? = some '\n'
        · cases rest with
          | nil =>
            have hs0 : s.head? = some '\n' := by simpa using h2.2
            have hsplit1 : splitLines (c :: ([] ++ s)) = splitLines s := by
              rw [List.nil_append, splitLines, if_neg h1, if_pos (by exact ⟨h2.1, hs0⟩)]
            have hsplit2 : splitLines (c :: ([] : List Char)) = [[c]] := by
              rw [splitLines, if_neg h1, if_neg (by simp)]
              rfl
            have hcw : isWs c = true := by rw [h2.1]; decide
            refine ⟨?_, ?_, ?_⟩
            · unfold findContentLine
              rw [hsplit1, hsplit2]
              rw [show (List.find? (fun x => !(jsTrim x).isEmpty) (splitLines s))
                  = findContentLine s from rfl,
                findContentLine_eq_none_of_allWs s hs]
              rw [List.find?_cons_of_neg _ ?_]
              · rfl
              · have : jsTrim [c] = [] := (jsTrim_eq_nil_iff [c]).mpr (by
                  rw [allWs_cons, hcw]; rfl)
                simp [this]
            · unfold firstLineOf
              rw [hsplit1, hsplit2]
              rw [show (splitLines s).headD [] = firstLineOf s from rfl]
              rw [(nu_eq_nil_iff _).mpr (allWs_firstLineOf_of_allWs s hs)]
              rw [show ([[c]] : List (List Char)).headD [] = [c] from rfl]
              rw [(nu_eq_nil_iff [c]).mpr (by rw [allWs_cons, hcw]; rfl)]
            · unfold firstLineOf
              rw [hsplit1, hsplit2]
              rw [show (splitLines s).headD [] = firstLineOf s from rfl]
              rw [(nuT_eq_nil_iff _).mpr (allWs_firstLineOf_of_allWs s hs)]
              rw [show ([[c]] : List (List Char)).headD [] = [c] from rfl]
              rw [(nuT_eq_nil_iff [c]).mpr (by rw [allWs_cons, hcw]; rfl)]
          | cons r rest' =>
            have h2' : c = '\r' ∧ (r :: rest').head? = some '\n' := by
              refine ⟨h2.1, ?_⟩
              have := h2.2
              simpa using this
            have hsplit1 : splitLines (c :: ((r :: rest') ++ s))
                = splitLines ((r :: rest') ++ s) := by
              rw [splitLines, if_neg h1, if_pos (by
                refine ⟨h2.1, ?_⟩
                simpa using h2'.2)]
            have hsplit2 : splitLines (c :: (r :: rest')) = splitLines (r :: rest') := by
              rw [splitLines, if_neg h1, if_pos h2']
            refine ⟨?_, ?_, ?_⟩
            · unfold findContentLine
              rw [hsplit1, hsplit2]
              exact ih1
            · unfold firstLineOf
              rw [hsplit1, hsplit2]
              exact ih2
            · unfold firstLineOf
              rw [hsplit1, hsplit2]
              exact ih3
        · have h2r : ¬(c = '\r' ∧ rest.head? = some '\n') := by
            intro hc
            apply h2
            refine ⟨hc.1, ?_⟩
            cases rest with
            | nil => simp at hc
            | cons r rest' =>
              have : r = '\n' := by simpa using hc.2
              simp [this]
          have hsplit1 : splitLines (c :: (rest ++ s))
              = (c :: firstLineOf (rest ++ s)) :: (splitLines (rest ++ s)).tail :=
            splitLines_cons_default c (rest ++ s) h1 h2
          have hsplit2 : splitLines (c :: rest)
              = (c :: firstLineOf rest) :: (splitLines rest).tail :=
            splitLines_cons_default c rest h1 h2r
          have hfl1 : firstLineOf (c :: (rest ++ s)) = c :: firstLineOf (rest ++ s) := by
            unfold firstLineOf
            rw [hsplit1]
            rfl
          have hfl2 : firstLineOf (c :: rest) = c :: firstLineOf rest := by
            unfold firstLineOf
            rw [hsplit2]
            rfl
          have hconj2 : nu (firstLineOf (c :: (rest ++ s))) = nu (firstLineOf (c :: rest)) := by
            rw [hfl1, hfl2]
            by_cases hcw : isWs c = true
            · rw [nu_cons_ws c _ hcw, nu_cons_ws c _ hcw]
              have hiff : allWs (firstLineOf (rest ++ s)) = allWs (firstLineOf rest) := by
                by_cases ha : allWs (firstLineOf (rest ++ s)) = true
                · have : allWs (firstLineOf rest) = true := by
                    rw [← nu_eq_nil_iff, ← ih2, nu_eq_nil_iff]
                    exact ha
                  rw [ha, this]
                · have : ¬allWs (firstLineOf rest) = true := by
                    rw [← nu_eq_nil_iff, ← ih2, nu_eq_nil_iff]
                    exact ha
                  simp only [Bool.not_eq_true] at ha this
                  rw [ha, this]
              rw [hiff, ih3]
            · rw [nu_cons_not_ws c _ hcw, nu_cons_not_ws c _ hcw, ih2]
          refine ⟨?_, hconj2, ?_⟩
          · unfold findContentLine
            rw [hsplit1, hsplit2]
            by_cases hcw : isWs c = true
            · rw [find_content_ws_head c hcw _ _, find_content_ws_head c hcw _ _]
              rw [← splitLines_eq_head_cons (rest ++ s), ← splitLines_eq_head_cons rest]
              exact ih1
            · have hp1 : (!(jsTrim (c :: firstLineOf (rest ++ s))).isEmpty) = true := by
                rw [jsTrim_cons_not_ws c _ hcw]
                simp
              have hp2 : (!(jsTrim (c :: firstLineOf rest)).isEmpty) = true := by
                rw [jsTrim_cons_not_ws c _ hcw]
                simp
              rw [@List.find?_cons_of_pos _ (fun x => !(jsTrim x).isEmpty) _ _ hp1,
                @List.find?_cons_of_pos _ (fun x => !(jsTrim x).isEmpty) _ _ hp2]
              show some (normLine (c :: firstLineOf (rest ++ s)))
                  = some (normLine (c :: firstLineOf rest))
              rw [normLine_cons_not_ws c _ hcw, normLine_cons_not_ws c _ hcw, ih2]
          · rw [hfl1, hfl2]
            by_cases hcw : isWs c = true
            · rw [nuT_cons_ws c _ hcw, nuT_cons_ws c _ hcw]
              exact ih3
            · rw [nuT_cons_not_ws c _ hcw, nuT_cons_not_ws c _ hcw]
              rw [← hfl1, ← hfl2]
              exact hconj2

/-- Every list is its end-trimmed part followed by its whitespace tail. -/
theorem wsTrimEnd_append_tail (z : List Char) :
    wsTrimEnd z ++ (z.reverse.takeWhile isWs).reverse = z := by
  unfold wsTrimEnd
  rw [← List.reverse_append, ← List.reverse_reverse z]
  rw [List.reverse_reverse z.reverse]
  rw [List.takeWhile_append_dropWhile isWs z.reverse]

/-- The whitespace tail dropped by the end trim is all-whitespace. -/
theorem allWs_wsTrimEnd_tail (z : List Char) :
    allWs (z.reverse.takeWhile isWs).reverse = true := by
  simp only [allWs, List.all_eq_true]
  intro x hx
  exact List.mem_takeWhile_imp (by simpa using hx)

/-- Trimming the input changes neither the normalised content line the find
produces. -/
theorem findContent_jsTrim (l : List Char) :
    Option.map normLine (findContentLine (jsTrim l))
      = Option.map normLine (findContentLine l) := by
  have htake : allWs (List.takeWhile isWs l) = true := by
    simp only [allWs, List.all_eq_true]
    intro x hx
    exact List.mem_takeWhile_imp hx
  have hfront : Option.map normLine (findContentLine l)
      = Option.map normLine (findContentLine (wsTrimStart l)) := by
    conv_lhs => rw [← List.takeWhile_append_dropWhile isWs l]
    exact findContent_ws_prepend (List.takeWhile isWs l).length _ _ (le_refl _) htake
  have hback : Option.map normLine (findContentLine (wsTrimStart l))
      = Option.map normLine (findContentLine (jsTrim l)) := by
    conv_lhs => rw [← wsTrimEnd_append_tail (wsTrimStart l)]
    exact (findContent_append_ws (wsTrimEnd (wsTrimStart l)).length _ _ (le_refl _)
      (allWs_wsTrimEnd_tail (wsTrimStart l))).1
  rw [hfront, hback]

/-- A non-empty trimmed list is not all-whitespace. -/
theorem not_allWs_jsTrim (l : List Char) (h : ¬jsTrim l = []) :
    ¬allWs (jsTrim l) = true := by
  cases hz : wsTrimStart l with
  | nil =>
    exfalso
    apply h
    show wsTrimEnd (wsTrimStart l) = []
    rw [hz]
    rfl
  | cons c z =>
    have hc : isWs c = false := by
      have := List.head?_dropWhile_not isWs l
      unfold wsTrimStart at hz
      rw [hz] at this
      exact this
    have : jsTrim l = c :: wsTrimEnd z := by
      show wsTrimEnd (wsTrimStart l) = _
      rw [hz]
      exact wsTrimEnd_cons_of_not_ws c z (by simp [hc])
    rw [this, allWs_cons, hc]
    simp

/-- The normalised form of a found content line is non-empty. -/
theorem normLine_ne_nil_of_found (x L : List Char) (h : findContentLine x = some L) :
    ¬normLine L = [] := by
  have hp := List.find?_some h
  have hne : ¬jsTrim L = [] := by
    intro hc
    simp [hc] at hp
  have hnW : ¬allWs L = true := by
    intro hc
    exact hne ((jsTrim_eq_nil_iff L).mpr hc)
  intro hc
  apply hnW
  unfold normLine at hc
  have := (jsTrim_eq_nil_iff (collapseWs L)).mp hc
  unfold collapseWs at this
  rw [allWs_collapseWsAux] at this
  exact this

/-- The title derivation of the source equals the amended specification
derivation on every input. -/
theorem deriveChatTitle_eq_spec (l : List Char) :
    deriveChatTitleFromMessage l = specDeriveChatTitle l := by
  by_cases hws : allWs l = true
  · have htrim : jsTrim l = [] := (jsTrim_eq_nil_iff l).mpr hws
    unfold deriveChatTitleFromMessage specDeriveChatTitle
    rw [htrim, findContentLine_eq_none_of_allWs l hws]
    rfl
  · have htrim : ¬jsTrim l = [] := by
      intro hc
      exact hws ((jsTrim_eq_nil_iff l).mp hc)
    have hfound1 : ¬findContentLine (jsTrim l) = none :=
      findContentLine_ne_none_of_not_allWs _ (not_allWs_jsTrim l htrim)
    obtain ⟨L1, hL1⟩ : ∃ L1, findContentLine (jsTrim l) = some L1 := by
      cases hf : findContentLine (jsTrim l) with
      | none => exact absurd hf hfound1
      | some L1 => exact ⟨L1, rfl⟩
    have hmap := findContent_jsTrim l
    rw [hL1] at hmap
    obtain ⟨L2, hL2, hnorm⟩ : ∃ L2, findContentLine l = some L2 ∧ normLine L1 = normLine L2 := by
      cases hf : findContentLine l with
      | none =>
        rw [hf] at hmap
        simp at hmap
      | some L2 =>
        rw [hf] at hmap
        refine ⟨L2, rfl, ?_⟩
        simpa using hmap
    have hne : ¬normLine L1 = [] := by
      rw [hnorm]
      exact normLine_ne_nil_of_found l L2 hL2
    unfold deriveChatTitleFromMessage specDeriveChatTitle
    rw [hL2]
    rw [if_neg (by simpa using htrim)]
    rw [hL1]
    show (if (normLine L1).isEmpty = true then none
      else if (normLine L1).length ≤ 48 then some (normLine L1)
      else some (wsTrimEnd ((normLine L1).take 47) ++ ['…']))
      = (if (normLine L2).length ≤ 48 then some (normLine L2)
      else some (wsTrimEnd ((normLine L2).take 47) ++ ['…']))
    rw [if_neg (by simpa using hne)]
    rw [hnorm]

/-- Claim C4 (amended): for every input the derived title is the first
line whose trim is non-empty, with whitespace runs collapsed to single
spaces and trimmed; when that exceeds 48 characters the title is its first
47 characters with trailing whitespace removed followed by one ellipsis
character; 60 letters x derive 47 of them plus the ellipsis, 48 characters
in total, and whitespace-only input derives nothing. -/
theorem C4_amended_title_derivation :
    (∀ l : List Char, deriveChatTitleFromMessage l = specDeriveChatTitle l) ∧
    deriveChatTitleFromMessage "hello   world\n\nmore".data = some "hello world".data ∧
    deriveChatTitleFromMessage (List.replicate 60 'x')
      = some (List.replicate 47 'x' ++ ['…']) ∧
    (List.replicate 47 'x' ++ ['…']).length = 48 ∧
    deriveChatTitleFromMessage "   \n\t ".data = none :=
  ⟨deriveChatTitle_eq_spec, by decide, by decide, by decide, by decide⟩
